import Mathlib

/-!
Verification of the orchestration core of the Auto_All_System_Pyqt repository.

The definitions below are shallow embeddings of the Python source:

* `upsert_account`           — `DBManager.upsert_account`   (src/core/database.py, lines 277-328)
* `get_available_cards`      — `DBManager.get_available_cards` (src/core/database.py, lines 710-725)
* `increment_card_usage`     — `DBManager.increment_card_usage` (src/core/database.py, lines 728-742)
* `allocBatch` / `runChunks` — the allocation loop of `AutoAllInOneWorker._process_all`
                               (src/_legacy/auto_all_in_one_gui.py, lines 46-94)
* `poll_status`              — `SheerIDVerifier._poll_status` (src/_legacy/sheerid_verifier.py, lines 169-212)
* `verify_batch`             — `SheerIDVerifier.verify_batch` (src/_legacy/sheerid_verifier.py, lines 69-146)
* `get_csrf_token`           — the pattern cascade of `SheerIDVerifier._get_csrf_token`
                               (src/_legacy/sheerid_verifier.py, lines 25-67)

Machine-level details that have no bearing on the verified properties (SQL plumbing,
logging, Qt signals, the regex engine, real sleeping) are represented by explicit
state passing, oracles for external responses, and a time parameter for
`CURRENT_TIMESTAMP`.
-/

set_option autoImplicit false

namespace AutoBB

/-! ## Job Store (accounts table, `DBManager.upsert_account`) -/

/-- One row of the `accounts` table.  Columns irrelevant to every claim
(`created_at`) are omitted; `updated_at` is modelled as an abstract tick. -/
structure AccountRow where
  email : String
  password : Option String
  recovery_email : Option String
  secret_key : Option String
  verification_link : Option String
  browser_id : Option String
  status : String
  message : Option String
  updated_at : Nat
  deriving DecidableEq, Repr

/-- The keyword arguments of `DBManager.upsert_account`; `none` is Python `None`
(the "absent" marker used by the merge logic). -/
structure UpsertArgs where
  email : String
  password : Option String
  recovery_email : Option String
  secret_key : Option String
  link : Option String
  browser_id : Option String
  status : Option String
  message : Option String
  deriving DecidableEq, Repr

/-- The accounts table, keyed by `email` (the primary key). -/
def AccountsDb : Type := String → Option AccountRow

/-- `SET field = ?` is issued only when the argument is not `None`. -/
def mergeField (new old : Option String) : Option String :=
  match new with
  | some v => some v
  | none => old

/-- `status or 'pending_check'` from the INSERT branch: Python coerces both
`None` and the empty string (falsy) to the default. -/
def statusOrDefault (s : Option String) : String :=
  match s with
  | none => "pending_check"
  | some v => if v = "" then "pending_check" else v

/-- Whether any `SET` clause is generated (the UPDATE is skipped otherwise,
leaving even `updated_at` untouched). -/
def anyFieldGiven (a : UpsertArgs) : Bool :=
  a.password.isSome || a.recovery_email.isSome || a.secret_key.isSome ||
  a.link.isSome || a.browser_id.isSome || a.status.isSome || a.message.isSome

/-- The UPDATE branch of `upsert_account`: a `SET` clause per non-`None`
argument, plus `updated_at = CURRENT_TIMESTAMP` whenever at least one clause
is generated (the UPDATE is skipped entirely otherwise). -/
def updateRow (a : UpsertArgs) (now : Nat) (r : AccountRow) : AccountRow :=
  { email := r.email
    password := mergeField a.password r.password
    recovery_email := mergeField a.recovery_email r.recovery_email
    secret_key := mergeField a.secret_key r.secret_key
    verification_link := mergeField a.link r.verification_link
    browser_id := mergeField a.browser_id r.browser_id
    status := match a.status with | some s => s | none => r.status
    message := mergeField a.message r.message
    updated_at := if anyFieldGiven a then now else r.updated_at }

/-- The INSERT branch of `upsert_account` (note `status or 'pending_check'`). -/
def createRow (a : UpsertArgs) (now : Nat) : AccountRow :=
  { email := a.email
    password := a.password
    recovery_email := a.recovery_email
    secret_key := a.secret_key
    verification_link := a.link
    browser_id := a.browser_id
    status := statusOrDefault a.status
    message := a.message
    updated_at := now }

/-- `DBManager.upsert_account`.  `now` stands for `CURRENT_TIMESTAMP` at the
moment of the call.  The leading `if not email: return` guard drops calls with
a falsy (empty) email. -/
def upsert_account (a : UpsertArgs) (now : Nat) (db : AccountsDb) : AccountsDb :=
  if a.email = "" then db
  else
    match db a.email with
    | some r => fun e => if e = a.email then some (updateRow a now r) else db e
    | none => fun e => if e = a.email then some (createRow a now) else db e

/-- The empty accounts table. -/
def emptyDb : AccountsDb := fun _ => none

/-! ## Verification Client (`SheerIDVerifier`)

External HTTP traffic is represented by oracles: a `PollResponse` for every
poll attempt, a `BatchResponse` for each `POST /api/batch`, and the outcome of
each CSRF-token extraction.  JSON objects are flattened to the four fields the
client reads. -/

/-- A parsed `data: {...}` JSON object: the four keys the client looks at.
`none` means the key is absent. -/
structure ApiData where
  verificationId : Option String
  currentStep : Option String
  message : Option String
  checkToken : Option String
  deriving DecidableEq, Repr

/-- The value stored in the `results` dict for one verification id: either a
JSON object recorded verbatim, or a synthesized
`{"status": "error", "message": msg}` dict. -/
inductive VResult where
  | data (d : ApiData)
  | errorMsg (msg : String)
  deriving DecidableEq, Repr

/-- Outcome of one iteration of the poll loop body: either the POST (or
`resp.json()`) raised — `requests.exceptions.Timeout` and every other
exception are both caught and retried — or a JSON object came back. -/
inductive PollResponse where
  | exn (msg : String)
  | json (d : ApiData)
  deriving Repr

/-- `status == "success" or status == "error"` where `status = d.get("currentStep")`. -/
def isTerminalStep (d : ApiData) : Bool :=
  d.currentStep == some "success" || d.currentStep == some "error"

/-- Whether a poll attempt's outcome ends the loop. -/
def isTerminalResponse : PollResponse → Bool
  | .exn _ => false
  | .json d => isTerminalStep d

/-- Trace of one `_poll_status` call: the returned result, the total number of
attempts performed (each attempt = one 2-second sleep followed by one POST),
and the `checkToken` payload sent on each attempt, in order. -/
structure PollRun where
  result : VResult
  attempts : Nat
  sent : List String
  deriving Repr

/-- `SheerIDVerifier._poll_status`.  `fuel` is the remaining share of the
`for i in range(60)` budget, `i` the absolute attempt index so far, `tok` the
current `check_token`.  A terminal step returns the JSON verbatim; a non-
terminal JSON updates the token when a `checkToken` key is present; an
exception retries; an exhausted budget returns the client-side
`Polling timeout (120s)` error. -/
def poll_status (responses : Nat → PollResponse) : Nat → Nat → String → PollRun
  | 0, i, _ => ⟨.errorMsg "Polling timeout (120s)", i, []⟩
  | fuel + 1, i, tok =>
    match responses i with
    | .exn _ =>
      let r := poll_status responses fuel (i + 1) tok
      ⟨r.result, r.attempts, tok :: r.sent⟩
    | .json d =>
      if isTerminalStep d then ⟨.data d, i + 1, [tok]⟩
      else
        let r := poll_status responses fuel (i + 1) (d.checkToken.getD tok)
        ⟨r.result, r.attempts, tok :: r.sent⟩

/-- The most recent `checkToken` delivered strictly before attempt `i`
(falling back to the initial token); exceptions deliver nothing. -/
def lastTokenBefore (responses : Nat → PollResponse) (init : String) : Nat → String
  | 0 => init
  | i + 1 =>
    match responses i with
    | .exn _ => lastTokenBefore responses init i
    | .json d => d.checkToken.getD (lastTokenBefore responses init i)

/-- The `results` dict: an association list with pairwise-distinct keys;
`insertResult` is Python dict assignment (overwrite in place or append). -/
def insertResult (k : String) (v : VResult) : List (String × VResult) → List (String × VResult)
  | [] => [(k, v)]
  | (k', v') :: rest => if k' = k then (k', v) :: rest else (k', v') :: insertResult k v rest

/-- Dict lookup. -/
def lookupRes (k : String) : List (String × VResult) → Option VResult
  | [] => none
  | (k', v) :: rest => if k' = k then some v else lookupRes k rest

/-- `SheerIDVerifier._handle_api_response`: dispatch of one stream event.
The state is the `results` dict plus the number of poll loops entered so far
(`polls k` is the response oracle of the `k`-th poll loop).  Events without a
truthy `verificationId` are dropped; a `pending` step carrying a `checkToken`
records the poll loop's final result; a terminal step records the event
verbatim; anything else records nothing. -/
def handle_api_response (polls : Nat → Nat → PollResponse) (d : ApiData)
    (st : List (String × VResult) × Nat) : List (String × VResult) × Nat :=
  match d.verificationId with
  | none => st
  | some vid =>
    if vid = "" then st
    else
      match d.checkToken with
      | some tok =>
        if d.currentStep == some "pending" then
          (insertResult vid (poll_status (polls st.2) 60 0 tok).result st.1, st.2 + 1)
        else if isTerminalStep d then (insertResult vid (.data d) st.1, st.2)
        else st
      | none =>
        if isTerminalStep d then (insertResult vid (.data d) st.1, st.2)
        else st

/-- Folding `_handle_api_response` over the decoded `data:` events of the SSE
stream (lines that are empty, not `data:`-prefixed, or undecodable are skipped
by the source and therefore never reach this list). -/
def processEvents (polls : Nat → Nat → PollResponse) (events : List ApiData)
    (st : List (String × VResult) × Nat) : List (String × VResult) × Nat :=
  events.foldl (fun s d => handle_api_response polls d s) st

/-- The `except` clause of `verify_batch`: give every input id that is not yet
in `results` the error result `str(e)`. -/
def fillMissing (ids : List String) (msg : String)
    (res : List (String × VResult)) : List (String × VResult) :=
  ids.foldl (fun r vid => if (lookupRes vid r).isSome then r
                          else insertResult vid (.errorMsg msg) r) res

/-- The dict comprehension `{vid: {"status": "error", "message": msg} for vid in ids}`. -/
def allError (ids : List String) (msg : String) : List (String × VResult) :=
  ids.foldl (fun r vid => insertResult vid (.errorMsg msg) r) []

/-- Outcome of one `POST /api/batch`: either the request (or the subsequent
stream iteration) raised before any event was seen, or an HTTP response with a
status code, a body, the decoded `data:` events, and — when `streamExn` is
set — an exception raised mid-stream after those events were processed. -/
inductive BatchResponse where
  | exn (msg : String)
  | http (status : Nat) (body : String) (events : List ApiData) (streamExn : Option String)
  deriving Repr

/-- The environment of one `verify_batch` call: the token held from any
earlier call, the outcome of the pre-batch `_get_csrf_token` (`none` = no
pattern matched or the GET raised), the outcome of the refresh attempted on a
401/403 rejection, the two possible batch responses, and the poll oracles. -/
structure BatchWorld where
  initialToken : Option String
  csrf1 : Option String
  csrf2 : Option String
  resp1 : BatchResponse
  resp2 : BatchResponse
  polls : Nat → Nat → PollResponse

/-- Trace of one `verify_batch` call: the returned dict, how many times
`POST /api/batch` was issued, how many token refreshes were attempted after an
authorization rejection, and the `X-CSRF-Token` header of the first POST. -/
structure BatchRun where
  results : List (String × VResult)
  submissions : Nat
  rejectionRefreshes : Nat
  firstHeaderToken : Option String

/-- Shared tail of `verify_batch`: the status check (`!= 200` synthesizes
`HTTP <code>: <body[:200]>` for every id) and the SSE stream processing, with
the exception handler filling in the ids the stream never resolved. -/
def finishBatch (w : BatchWorld) (ids : List String) (resp : BatchResponse)
    (subs refs : Nat) (tok0 : Option String) : BatchRun :=
  match resp with
  | .exn m => ⟨fillMissing ids m [], subs, refs, tok0⟩
  | .http st body events streamExn =>
    if st ≠ 200 then
      ⟨allError ids ("HTTP " ++ toString st ++ ": " ++ body.take 200), subs, refs, tok0⟩
    else
      let res := (processEvents w.polls events ([], 0)).1
      match streamExn with
      | some m => ⟨fillMissing ids m res, subs, refs, tok0⟩
      | none => ⟨res, subs, refs, tok0⟩

/-- `SheerIDVerifier.verify_batch`.  The pre-batch token refresh keeps the old
token on failure; a 401/403 on the first submission triggers exactly one
refresh, whose failure returns `Token expired and refresh failed` for every id
and whose success triggers exactly one resubmission of the same payload. -/
def verify_batch (w : BatchWorld) (ids : List String) : BatchRun :=
  let tok0 := match w.csrf1 with
              | some t => some t
              | none => w.initialToken
  match w.resp1 with
  | .exn m => ⟨fillMissing ids m [], 1, 0, tok0⟩
  | .http st body events streamExn =>
    if st = 403 ∨ st = 401 then
      match w.csrf2 with
      | none => ⟨allError ids "Token expired and refresh failed", 1, 1, tok0⟩
      | some _ => finishBatch w ids w.resp2 2 1 tok0
    else finishBatch w ids (.http st body events streamExn) 1 0 tok0

/-- `SheerIDVerifier._get_csrf_token`'s pattern cascade: `matches` is the list
of `re.search` outcomes for the three known embedding patterns against the
returned markup, in source order; the first match wins and no match yields no
token. -/
def get_csrf_token : List (Option String) → Option String
  | [] => none
  | some t :: _ => some t
  | none :: rest => get_csrf_token rest

/-! ## Resource Pool Manager and Batch Orchestrator

`Card` keeps the columns of the `cards` table that the pool logic reads;
payment payload columns (number, expiry, cvv, ...) are opaque to every claim
and omitted.  The orchestrator (`AutoAllInOneWorker._process_all`) is driven
by job positions `0, ..., n-1` (the `global_index` of the source); the job
outcome oracle says whether job `j` reports success (which is when
`DBManager.increment_card_usage` fires). -/

/-- One row of the `cards` table (the pool-relevant columns). -/
structure Card where
  id : Nat
  usage_count : Nat
  max_usage : Nat
  is_active : Bool
  deriving DecidableEq, Repr

/-- `WHERE is_active = 1 AND usage_count < max_usage`. -/
def cardEligible (c : Card) : Bool :=
  c.is_active && c.usage_count < c.max_usage

/-- `ORDER BY usage_count ASC, id ASC` (a total order: `id` is the primary key). -/
def cardLe (a b : Card) : Bool :=
  a.usage_count < b.usage_count || (a.usage_count == b.usage_count && a.id ≤ b.id)

/-- Insertion step of the ordering. -/
def sortedInsertCard (c : Card) : List Card → List Card
  | [] => [c]
  | d :: rest => if cardLe c d then c :: d :: rest else d :: sortedInsertCard c rest

/-- Sort by `(usage_count, id)` ascending. -/
def sortCards : List Card → List Card
  | [] => []
  | c :: rest => sortedInsertCard c (sortCards rest)

/-- `DBManager.get_available_cards`. -/
def get_available_cards (db : List Card) : List Card :=
  sortCards (db.filter cardEligible)

/-- `DBManager.increment_card_usage`: an unconditional
`SET usage_count = usage_count + 1` on the matching row. -/
def increment_card_usage (cardId : Nat) (db : List Card) : List Card :=
  db.map (fun c => if c.id = cardId then { c with usage_count := c.usage_count + 1 } else c)

/-- Usage count currently stored for a card id. -/
def dbUsageOf (db : List Card) (cardId : Nat) : Nat :=
  ((db.find? (fun c => c.id == cardId)).map Card.usage_count).getD 0

/-- Slicing recursion behind `chunksOf`, structural on a fuel bound of the
list length (each step consumes the head, so `l.length` fuel always suffices). -/
def chunksOfFuel {α : Type} (n : Nat) : Nat → List α → List (List α)
  | _, [] => []
  | 0, _ :: _ => []
  | fuel + 1, x :: xs => (x :: xs.take (n - 1)) :: chunksOfFuel n fuel (xs.drop (n - 1))

/-- `range(0, len(accounts), thread_count)` slicing: the batch list. -/
def chunksOf {α : Type} (n : Nat) (l : List α) : List (List α) :=
  chunksOfFuel n l.length l

/-- The two mutable locals of `_process_all` that drive card rotation. -/
structure AllocState where
  card_index : Nat
  card_usage_count : Nat
  deriving DecidableEq, Repr

/-- The `if card_usage_count >= self.cards_per_account` rotation at the top of
the per-account body. -/
def rotateState (cpa : Nat) (s : AllocState) : AllocState :=
  if cpa ≤ s.card_usage_count then ⟨s.card_index + 1, 0⟩ else s

/-- Outcome of the per-account body: a task with a card index, or the
`card_index >= len(self.cards)` break. -/
inductive StepResult where
  | assigned (cardIdx : Nat)
  | exhausted
  deriving DecidableEq, Repr

/-- One iteration of the inner account loop: rotate if due, break if the pool
index ran off the end, otherwise hand out `cards[card_index]` and count the
hand-out against the current card. -/
def allocStep (numCards cpa : Nat) (s : AllocState) : StepResult × AllocState :=
  let m := rotateState cpa s
  if numCards ≤ m.card_index then (.exhausted, m)
  else (.assigned m.card_index, ⟨m.card_index, m.card_usage_count + 1⟩)

/-- The inner account loop over one batch: `break` skips every remaining
account of the batch (they receive no task, no card, and no status signal). -/
def allocBatch (numCards cpa : Nat) : AllocState → List Nat → List (Nat × Nat) × AllocState
  | s, [] => ([], s)
  | s, j :: rest =>
    match allocStep numCards cpa s with
    | (.exhausted, s') => ([], s')
    | (.assigned c, s') =>
      let r := allocBatch numCards cpa s' rest
      ((j, c) :: r.1, r.2)

/-- The batch loop: the rotation state persists across batches. -/
def allocChunks (numCards cpa : Nat) : AllocState → List (List Nat) → List (List (Nat × Nat)) × AllocState
  | s, [] => ([], s)
  | s, c :: cs =>
    let r := allocBatch numCards cpa s c
    let r2 := allocChunks numCards cpa r.2 cs
    (r.1 :: r2.1, r2.2)

/-- One card hand-out, together with the usage count the database held for
that card when the task was created (the moment of allocation). -/
structure AllocEvent where
  job : Nat
  cardId : Nat
  usageAtAlloc : Nat
  maxUsage : Nat
  deriving DecidableEq, Repr

/-- A dummy row; every access is guarded by `cardIdx < snapshot.length`. -/
def defaultCard : Card := ⟨0, 0, 0, false⟩

/-- Full trace of one `_process_all` run: the tasks of each batch (job index,
snapshot card index), the allocation events, and the database after all
`increment_card_usage` calls. -/
structure RunTrace where
  chunksAssigned : List (List (Nat × Nat))
  events : List AllocEvent
  finalDb : List Card

/-- Chunk-by-chunk execution: tasks of a batch are created (allocations read
the database as left by earlier batches), the batch is awaited, and each
successful job increments its card's usage count in the database.  `snapshot`
is `self.cards`, loaded once via `get_available_cards` before the run. -/
def runChunks (snapshot : List Card) (numCards cpa : Nat) (outcome : Nat → Bool) :
    AllocState → List Card → List (List Nat) → RunTrace
  | _, db, [] => ⟨[], [], db⟩
  | s, db, c :: cs =>
    let r := allocBatch numCards cpa s c
    let asg := r.1
    let evs := asg.map (fun p =>
      let card := snapshot.getD p.2 defaultCard
      AllocEvent.mk p.1 card.id (dbUsageOf db card.id) card.max_usage)
    let db' := asg.foldl (fun d p =>
      if outcome p.1 then increment_card_usage (snapshot.getD p.2 defaultCard).id d else d) db
    let t := runChunks snapshot numCards cpa outcome r.2 db' cs
    ⟨asg :: t.chunksAssigned, evs ++ t.events, t.finalDb⟩

/-- `AutoAllInOneWorker._process_all` over jobs `0, ..., n-1`:
`cpa` is the `一卡几绑` setting (`cards_per_account`), `threads` the
concurrency (`thread_count`), `outcome j` whether job `j` reports success. -/
def runProcessAll (db0 : List Card) (cpa threads n : Nat) (outcome : Nat → Bool) : RunTrace :=
  let snapshot := get_available_cards db0
  runChunks snapshot snapshot.length cpa outcome ⟨0, 0⟩ db0 (chunksOf threads (List.range n))

/-- The final per-job progress signal emitted by
`_process_single_account_wrapper`: one `(job, status)` pair per created task —
jobs skipped by the exhaustion break emit nothing. -/
def emittedStatuses (t : RunTrace) (outcome : Nat → Bool) : List (Nat × String) :=
  t.chunksAssigned.flatten.map (fun p => (p.1, if outcome p.1 then "完成" else "失败"))

/-! ## Job Store lemmas and claims C4, C5 -/

theorem mergeField_idem (n o : Option String) : mergeField n (mergeField n o) = mergeField n o := by
  cases n <;> rfl

theorem mergeField_self (n : Option String) : mergeField n n = n := by
  cases n <;> rfl

theorem upsert_account_lookup_self (a : UpsertArgs) (now : Nat) (db : AccountsDb)
    (he : a.email ≠ "") :
    upsert_account a now db a.email =
      some (match db a.email with
            | some r => updateRow a now r
            | none => createRow a now) := by
  unfold upsert_account
  rw [if_neg he]
  cases db a.email <;> simp

theorem upsert_account_lookup_other (a : UpsertArgs) (now : Nat) (db : AccountsDb)
    (e : String) (hne : e ≠ a.email) :
    upsert_account a now db e = db e := by
  unfold upsert_account
  by_cases he : a.email = ""
  · rw [if_pos he]
  · rw [if_neg he]; cases db a.email <;> simp [hne]

theorem updateRow_idem (a : UpsertArgs) (now : Nat) (r : AccountRow) :
    updateRow a now (updateRow a now r) = updateRow a now r := by
  unfold updateRow
  cases hs : a.status <;> by_cases hf : anyFieldGiven a <;>
    simp [mergeField_idem, hf]

theorem updateRow_createRow (a : UpsertArgs) (now : Nat) (hs : a.status ≠ some "") :
    updateRow a now (createRow a now) = createRow a now := by
  unfold updateRow createRow statusOrDefault
  cases hst : a.status with
  | none => simp [mergeField_self]
  | some s =>
    have hne : ¬ s = "" := by
      intro h; exact hs (by rw [hst, h])
    simp [mergeField_self, hne]

/-- Claim C4 (counterexample): two identical `upsert` calls with `status=""`
do not leave the record after a single such call — the creating call coerces
the falsy empty string to `pending_check` while the second (updating) call
stores `""` verbatim. -/
theorem upsert_twice_empty_status_differs :
    upsert_account ⟨"a@b.c", none, none, none, none, none, some "", none⟩ 0
        (upsert_account ⟨"a@b.c", none, none, none, none, none, some "", none⟩ 0 emptyDb) "a@b.c"
      ≠ upsert_account ⟨"a@b.c", none, none, none, none, none, some "", none⟩ 0 emptyDb "a@b.c" := by
  decide

/-- Claim C4 (amended): `upsert_account` is idempotent — two calls with
identical arguments, at the same `CURRENT_TIMESTAMP` tick, leave exactly the
stored record of a single call — for every combination of field arguments in
which `status` is not the empty string. -/
theorem upsert_account_idem (a : UpsertArgs) (now : Nat) (db : AccountsDb)
    (hs : a.status ≠ some "") (e : String) :
    upsert_account a now (upsert_account a now db) e = upsert_account a now db e := by
  by_cases he : a.email = ""
  · simp [upsert_account, he]
  · by_cases hee : e = a.email
    · subst hee
      rw [upsert_account_lookup_self a now (upsert_account a now db) he,
          upsert_account_lookup_self a now db he]
      cases hdb : db a.email with
      | some r => simp [updateRow_idem]
      | none => simp [updateRow_createRow a now hs]
    · rw [upsert_account_lookup_other a now (upsert_account a now db) e hee,
          upsert_account_lookup_other a now db e hee]

/-- Witness for C4's amended theorem at a concrete input. -/
theorem upsert_account_idem_witness :
    upsert_account ⟨"w@x.y", some "pw", none, none, none, none, some "verified", none⟩ 7
        (upsert_account ⟨"w@x.y", some "pw", none, none, none, none, some "verified", none⟩ 7 emptyDb) "w@x.y"
      = upsert_account ⟨"w@x.y", some "pw", none, none, none, none, some "verified", none⟩ 7 emptyDb "w@x.y" :=
  upsert_account_idem ⟨"w@x.y", some "pw", none, none, none, none, some "verified", none⟩ 7 emptyDb
    (by decide) "w@x.y"

/-- Claim C5 (counterexample): with an empty id the guard `if not email:
return` drops the call — no record is created even though none exists. -/
theorem upsert_account_empty_email_no_create :
    upsert_account ⟨"", some "pw", none, none, none, none, some "pending_check", none⟩ 3 emptyDb ""
      = none := by
  decide

/-- Claim C5 (amended): for every non-empty id, `upsert_account` merges only
the fields passed as non-`None` into the existing record — every field passed
as `None` keeps its previously stored value, every other record is untouched —
and the record is created when no record with that id exists. -/
theorem upsert_account_merge_frame (a : UpsertArgs) (now : Nat) (db : AccountsDb)
    (he : a.email ≠ "") :
    (∀ e, e ≠ a.email → upsert_account a now db e = db e) ∧
    (∀ r, db a.email = some r →
      upsert_account a now db a.email = some (updateRow a now r) ∧
      (a.password = none → (updateRow a now r).password = r.password) ∧
      (∀ v, a.password = some v → (updateRow a now r).password = some v) ∧
      (a.recovery_email = none → (updateRow a now r).recovery_email = r.recovery_email) ∧
      (∀ v, a.recovery_email = some v → (updateRow a now r).recovery_email = some v) ∧
      (a.secret_key = none → (updateRow a now r).secret_key = r.secret_key) ∧
      (∀ v, a.secret_key = some v → (updateRow a now r).secret_key = some v) ∧
      (a.link = none → (updateRow a now r).verification_link = r.verification_link) ∧
      (∀ v, a.link = some v → (updateRow a now r).verification_link = some v) ∧
      (a.browser_id = none → (updateRow a now r).browser_id = r.browser_id) ∧
      (∀ v, a.browser_id = some v → (updateRow a now r).browser_id = some v) ∧
      (a.status = none → (updateRow a now r).status = r.status) ∧
      (∀ v, a.status = some v → (updateRow a now r).status = v) ∧
      (a.message = none → (updateRow a now r).message = r.message) ∧
      (∀ v, a.message = some v → (updateRow a now r).message = some v)) ∧
    (db a.email = none → upsert_account a now db a.email = some (createRow a now)) := by
  refine ⟨fun e hne => upsert_account_lookup_other a now db e hne, ?_, ?_⟩
  · intro r hdb
    refine ⟨?_, ?_, ?_, ?_, ?_, ?_, ?_, ?_, ?_, ?_, ?_, ?_, ?_, ?_, ?_⟩
    · rw [upsert_account_lookup_self a now db he, hdb]
    all_goals
      first
        | (intro h; simp [updateRow, mergeField, h])
        | (intro v h; simp [updateRow, mergeField, h])
  · intro hdb
    rw [upsert_account_lookup_self a now db he, hdb]

/-- Witness for C5's amended theorem: a creating upsert at a concrete input. -/
theorem upsert_account_merge_frame_witness :
    upsert_account ⟨"w@x.y", some "p", none, none, none, none, none, none⟩ 2 emptyDb "w@x.y"
      = some (createRow ⟨"w@x.y", some "p", none, none, none, none, none, none⟩ 2) :=
  (upsert_account_merge_frame ⟨"w@x.y", some "p", none, none, none, none, none, none⟩ 2 emptyDb
    (by decide)).2.2 rfl

/-! ## Poll-loop lemmas and claims C6, C10 -/

/-- Token evolution of one attempt: an exception leaves `check_token` alone, a
JSON response replaces it when a `checkToken` key is present. -/
def stepToken : PollResponse → String → String
  | .exn _, tok => tok
  | .json d, tok => d.checkToken.getD tok

/-- The token the loop holds at attempt `i + k`, having started attempt `i`
with token `tok`: the most recent `checkToken` received in between. -/
def tokenFrom (r : Nat → PollResponse) (tok : String) (i : Nat) : Nat → String
  | 0 => tok
  | k + 1 => stepToken (r (i + k)) (tokenFrom r tok i k)

theorem tokenFrom_shift (r : Nat → PollResponse) (tok : String) (i : Nat) :
    ∀ k, tokenFrom r (stepToken (r i) tok) (i + 1) k = tokenFrom r tok i (k + 1) := by
  intro k
  induction k with
  | zero => rfl
  | succ k ih =>
    have hidx : i + 1 + k = i + (k + 1) := by omega
    calc tokenFrom r (stepToken (r i) tok) (i + 1) (k + 1)
        = stepToken (r (i + 1 + k)) (tokenFrom r (stepToken (r i) tok) (i + 1) k) := rfl
      _ = stepToken (r (i + (k + 1))) (tokenFrom r tok i (k + 1)) := by rw [hidx, ih]
      _ = tokenFrom r tok i (k + 2) := rfl

theorem poll_status_exn_eq (r : Nat → PollResponse) (n i : Nat) (tok m : String)
    (h : r i = .exn m) :
    poll_status r (n + 1) i tok =
      ⟨(poll_status r n (i + 1) tok).result,
       (poll_status r n (i + 1) tok).attempts,
       tok :: (poll_status r n (i + 1) tok).sent⟩ := by
  simp [poll_status, h]

theorem poll_status_terminal_eq (r : Nat → PollResponse) (n i : Nat) (tok : String)
    (d : ApiData) (h : r i = .json d) (ht : isTerminalStep d = true) :
    poll_status r (n + 1) i tok = ⟨.data d, i + 1, [tok]⟩ := by
  simp [poll_status, h, ht]

theorem poll_status_cont_eq (r : Nat → PollResponse) (n i : Nat) (tok : String)
    (d : ApiData) (h : r i = .json d) (ht : isTerminalStep d = false) :
    poll_status r (n + 1) i tok =
      ⟨(poll_status r n (i + 1) (d.checkToken.getD tok)).result,
       (poll_status r n (i + 1) (d.checkToken.getD tok)).attempts,
       tok :: (poll_status r n (i + 1) (d.checkToken.getD tok)).sent⟩ := by
  simp [poll_status, h, ht]

theorem poll_status_attempts_le (r : Nat → PollResponse) :
    ∀ fuel i tok, (poll_status r fuel i tok).attempts ≤ i + fuel := by
  intro fuel
  induction fuel with
  | zero => intro i tok; simp [poll_status]
  | succ n ih =>
    intro i tok
    cases hr : r i with
    | exn m =>
      rw [poll_status_exn_eq r n i tok m hr]
      have := ih (i + 1) tok
      dsimp only
      omega
    | json d =>
      cases ht : isTerminalStep d with
      | true =>
        rw [poll_status_terminal_eq r n i tok d hr ht]
        dsimp only
        omega
      | false =>
        rw [poll_status_cont_eq r n i tok d hr ht]
        have := ih (i + 1) (d.checkToken.getD tok)
        dsimp only
        omega

theorem poll_status_timeout (r : Nat → PollResponse) :
    ∀ fuel i tok, (∀ k, i ≤ k → k < i + fuel → isTerminalResponse (r k) = false) →
      (poll_status r fuel i tok).result = .errorMsg "Polling timeout (120s)" ∧
      (poll_status r fuel i tok).attempts = i + fuel := by
  intro fuel
  induction fuel with
  | zero => intro i tok _; exact ⟨rfl, rfl⟩
  | succ n ih =>
    intro i tok h
    have hi : isTerminalResponse (r i) = false := h i (Nat.le_refl i) (by omega)
    cases hr : r i with
    | exn m =>
      rw [poll_status_exn_eq r n i tok m hr]
      have := ih (i + 1) tok (fun k hk hk2 => h k (by omega) (by omega))
      exact ⟨this.1, by dsimp only; omega⟩
    | json d =>
      have ht : isTerminalStep d = false := by rw [hr] at hi; exact hi
      rw [poll_status_cont_eq r n i tok d hr ht]
      have := ih (i + 1) (d.checkToken.getD tok) (fun k hk hk2 => h k (by omega) (by omega))
      exact ⟨this.1, by dsimp only; omega⟩

theorem poll_status_sent_tokens (r : Nat → PollResponse) :
    ∀ fuel i tok k, k < (poll_status r fuel i tok).sent.length →
      (poll_status r fuel i tok).sent.get? k = some (tokenFrom r tok i k) := by
  intro fuel
  induction fuel with
  | zero => intro i tok k hk; simp [poll_status] at hk
  | succ n ih =>
    intro i tok k hk
    cases hr : r i with
    | exn m =>
      rw [poll_status_exn_eq r n i tok m hr] at hk ⊢
      cases k with
      | zero => rfl
      | succ k =>
        simp only [List.length_cons] at hk
        have hstep : stepToken (r i) tok = tok := by rw [hr]; rfl
        calc (tok :: (poll_status r n (i + 1) tok).sent).get? (k + 1)
            = (poll_status r n (i + 1) tok).sent.get? k := rfl
          _ = some (tokenFrom r tok (i + 1) k) := ih (i + 1) tok k (by omega)
          _ = some (tokenFrom r (stepToken (r i) tok) (i + 1) k) := by rw [hstep]
          _ = some (tokenFrom r tok i (k + 1)) := by rw [tokenFrom_shift]
    | json d =>
      cases ht : isTerminalStep d with
      | true =>
        rw [poll_status_terminal_eq r n i tok d hr ht] at hk ⊢
        simp only [List.length_cons, List.length_nil] at hk
        have hk0 : k = 0 := by omega
        subst hk0
        rfl
      | false =>
        rw [poll_status_cont_eq r n i tok d hr ht] at hk ⊢
        cases k with
        | zero => rfl
        | succ k =>
          simp only [List.length_cons] at hk
          have hstep : stepToken (r i) tok = d.checkToken.getD tok := by rw [hr]; rfl
          calc (tok :: (poll_status r n (i + 1) (d.checkToken.getD tok)).sent).get? (k + 1)
              = (poll_status r n (i + 1) (d.checkToken.getD tok)).sent.get? k := rfl
            _ = some (tokenFrom r (d.checkToken.getD tok) (i + 1) k) :=
                ih (i + 1) (d.checkToken.getD tok) k (by omega)
            _ = some (tokenFrom r (stepToken (r i) tok) (i + 1) k) := by rw [hstep]
            _ = some (tokenFrom r tok i (k + 1)) := by rw [tokenFrom_shift]

/-- Claim C6: the poll loop performs at most 60 attempts, each preceded by a
2-second sleep (at most 120 seconds of sleeping); when no attempt yields a
terminal step it runs the full budget and returns the client-side
`Polling timeout (120s)` error result; and an attempt whose request raises
never ends the loop — the loop's outcome is that of the remaining attempts. -/
theorem poll_loop_bounded (r : Nat → PollResponse) (tok : String) :
    (poll_status r 60 0 tok).attempts ≤ 60 ∧
    2 * (poll_status r 60 0 tok).attempts ≤ 120 ∧
    ((∀ k, k < 60 → isTerminalResponse (r k) = false) →
      (poll_status r 60 0 tok).result = .errorMsg "Polling timeout (120s)" ∧
      (poll_status r 60 0 tok).attempts = 60) ∧
    (∀ fuel i t m, r i = .exn m →
      (poll_status r (fuel + 1) i t).result = (poll_status r fuel (i + 1) t).result) := by
  have hle := poll_status_attempts_le r 60 0 tok
  refine ⟨by omega, by omega, ?_, ?_⟩
  · intro h
    exact poll_status_timeout r 60 0 tok (fun k _ hk => h k (by omega))
  · intro fuel i t m hr
    simp [poll_status, hr]

/-- Witness for C6 at a concrete input: a service that never answers. -/
theorem poll_loop_bounded_witness :
    (poll_status (fun _ => .exn "net down") 60 0 "T").result
        = .errorMsg "Polling timeout (120s)" ∧
    (poll_status (fun _ => .exn "net down") 60 0 "T").attempts = 60 :=
  (poll_loop_bounded (fun _ => .exn "net down") "T").2.2.1 (fun _ _ => rfl)

/-- Claim C10: the `checkToken` payload sent on poll attempt `k` is the most
recently received token — the initial token updated by every `checkToken` key
delivered by the attempts before `k` — and a non-terminal response carrying
`checkToken = t` makes `t` the token of the next attempt. -/
theorem poll_loop_uses_latest_token (r : Nat → PollResponse) (tok : String) (k : Nat)
    (hk : k < (poll_status r 60 0 tok).sent.length) :
    (poll_status r 60 0 tok).sent.get? k = some (tokenFrom r tok 0 k) ∧
    (∀ j d t, r j = .json d → d.checkToken = some t → tokenFrom r tok 0 (j + 1) = t) := by
  refine ⟨poll_status_sent_tokens r 60 0 tok k hk, ?_⟩
  intro j d t hj ht
  show stepToken (r (0 + j)) (tokenFrom r tok 0 j) = t
  have h0 : (0 : Nat) + j = j := by omega
  rw [h0, hj]
  simp [stepToken, ht]

/-- Witness for C10: the second attempt sends the token received on the first. -/
theorem poll_loop_uses_latest_token_witness :
    (poll_status
        (fun i => if i = 0 then .json ⟨some "V2", some "pending", none, some "B"⟩
                  else .json ⟨some "V2", some "error", some "bad", none⟩)
        60 0 "A").sent.get? 1
      = some (tokenFrom
          (fun i => if i = 0 then .json ⟨some "V2", some "pending", none, some "B"⟩
                    else .json ⟨some "V2", some "error", some "bad", none⟩) "A" 0 1) :=
  (poll_loop_uses_latest_token
      (fun i => if i = 0 then .json ⟨some "V2", some "pending", none, some "B"⟩
                else .json ⟨some "V2", some "error", some "bad", none⟩)
      "A" 1 (by decide)).1

/-! ## Results-dict lemmas and claims C1, C7, C8 -/

theorem lookupRes_insert_self (k : String) (v : VResult) (l : List (String × VResult)) :
    lookupRes k (insertResult k v l) = some v := by
  induction l with
  | nil => simp [insertResult, lookupRes]
  | cons p rest ih =>
    rcases p with ⟨a, b⟩
    by_cases h : a = k
    · simp [insertResult, lookupRes, h]
    · simp [insertResult, lookupRes, h, ih]

theorem lookupRes_insert_other (k k' : String) (v : VResult) (l : List (String × VResult))
    (h : k' ≠ k) : lookupRes k' (insertResult k v l) = lookupRes k' l := by
  have h2 : ¬ k = k' := fun hh => h hh.symm
  induction l with
  | nil => simp [insertResult, lookupRes, h2]
  | cons p rest ih =>
    rcases p with ⟨a, b⟩
    by_cases ha : a = k
    · simp [insertResult, lookupRes, ha, h2]
    · by_cases ha2 : a = k'
      · simp [insertResult, lookupRes, ha, ha2, h]
      · simp [insertResult, lookupRes, ha, ha2, ih]

theorem mem_keys_insert (k x : String) (v : VResult) (l : List (String × VResult)) :
    x ∈ (insertResult k v l).map Prod.fst → x = k ∨ x ∈ l.map Prod.fst := by
  induction l with
  | nil =>
    intro hm
    simp only [insertResult, List.map_cons, List.map_nil, List.mem_cons,
      List.not_mem_nil, or_false] at hm
    exact Or.inl hm
  | cons p rest ih =>
    rcases p with ⟨a, b⟩
    by_cases ha : a = k
    · intro hm
      rw [show insertResult k v ((a, b) :: rest) = (a, v) :: rest by
        simp [insertResult, ha]] at hm
      simp only [List.map_cons, List.mem_cons] at hm ⊢
      rcases hm with hm | hm
      · exact Or.inr (Or.inl hm)
      · exact Or.inr (Or.inr hm)
    · intro hm
      rw [show insertResult k v ((a, b) :: rest) = (a, b) :: insertResult k v rest by
        simp [insertResult, ha]] at hm
      simp only [List.map_cons, List.mem_cons] at hm ⊢
      rcases hm with hm | hm
      · exact Or.inr (Or.inl hm)
      · rcases ih hm with h2 | h2
        · exact Or.inl h2
        · exact Or.inr (Or.inr h2)

theorem keys_nodup_insert (k : String) (v : VResult) (l : List (String × VResult))
    (h : (l.map Prod.fst).Nodup) : ((insertResult k v l).map Prod.fst).Nodup := by
  induction l with
  | nil => simp [insertResult]
  | cons p rest ih =>
    rcases p with ⟨a, b⟩
    simp only [List.map_cons, List.nodup_cons] at h
    by_cases ha : a = k
    · rw [show insertResult k v ((a, b) :: rest) = (a, v) :: rest by
        simp [insertResult, ha]]
      simp only [List.map_cons, List.nodup_cons]
      exact ⟨h.1, h.2⟩
    · rw [show insertResult k v ((a, b) :: rest) = (a, b) :: insertResult k v rest by
        simp [insertResult, ha]]
      simp only [List.map_cons, List.nodup_cons]
      refine ⟨?_, ih h.2⟩
      intro hmem
      rcases mem_keys_insert k a v rest hmem with h2 | h2
      · exact ha h2
      · exact h.1 h2

theorem handle_nodup (polls : Nat → Nat → PollResponse) (d : ApiData)
    (st : List (String × VResult) × Nat) (h : (st.1.map Prod.fst).Nodup) :
    (((handle_api_response polls d st).1).map Prod.fst).Nodup := by
  unfold handle_api_response
  cases d.verificationId with
  | none => exact h
  | some vid =>
    dsimp only
    by_cases hv : vid = ""
    · rw [if_pos hv]; exact h
    · rw [if_neg hv]
      cases d.checkToken with
      | some tok =>
        dsimp only
        by_cases hp : (d.currentStep == some "pending") = true
        · rw [if_pos hp]
          exact keys_nodup_insert vid _ st.1 h
        · rw [if_neg hp]
          by_cases ht : isTerminalStep d = true
          · rw [if_pos ht]
            exact keys_nodup_insert vid _ st.1 h
          · rw [if_neg ht]; exact h
      | none =>
        dsimp only
        by_cases ht : isTerminalStep d = true
        · rw [if_pos ht]
          exact keys_nodup_insert vid _ st.1 h
        · rw [if_neg ht]; exact h

theorem processEvents_nodup (polls : Nat → Nat → PollResponse) (events : List ApiData) :
    ∀ st : List (String × VResult) × Nat, (st.1.map Prod.fst).Nodup →
      (((processEvents polls events st).1).map Prod.fst).Nodup := by
  induction events with
  | nil => intro st h; exact h
  | cons d rest ih =>
    intro st h
    exact ih (handle_api_response polls d st) (handle_nodup polls d st h)

theorem fillMissing_nodup (ids : List String) (msg : String) :
    ∀ res : List (String × VResult), (res.map Prod.fst).Nodup →
      ((fillMissing ids msg res).map Prod.fst).Nodup := by
  induction ids with
  | nil => intro res h; exact h
  | cons v rest ih =>
    intro res h
    show ((fillMissing rest msg _).map Prod.fst).Nodup
    by_cases hv : (lookupRes v res).isSome
    · simpa [fillMissing, hv] using ih res h
    · simpa [fillMissing, hv] using ih _ (keys_nodup_insert v _ res h)

theorem fillMissing_preserves (ids : List String) (msg : String) :
    ∀ res x, (lookupRes x res).isSome → (lookupRes x (fillMissing ids msg res)).isSome := by
  induction ids with
  | nil => intro res x h; exact h
  | cons v rest ih =>
    intro res x h
    by_cases hv : (lookupRes v res).isSome
    · simpa [fillMissing, hv] using ih res x h
    · by_cases hx : x = v
      · subst hx
        have hI : lookupRes x (insertResult x (.errorMsg msg) res) = some (.errorMsg msg) :=
          lookupRes_insert_self x _ res
        simpa [fillMissing, hv] using ih _ x (by rw [hI]; rfl)
      · have hI : lookupRes x (insertResult v (.errorMsg msg) res) = lookupRes x res :=
          lookupRes_insert_other v x _ res hx
        simpa [fillMissing, hv] using ih _ x (by rw [hI]; exact h)

theorem fillMissing_complete (ids : List String) (msg : String) :
    ∀ res id, id ∈ ids → (lookupRes id (fillMissing ids msg res)).isSome := by
  induction ids with
  | nil => intro res id h; cases h
  | cons v rest ih =>
    intro res id hid
    rcases List.mem_cons.mp hid with h | h
    · subst h
      by_cases hv : (lookupRes id res).isSome
      · simpa [fillMissing, hv] using fillMissing_preserves rest msg res id hv
      · have hI : lookupRes id (insertResult id (.errorMsg msg) res) = some (.errorMsg msg) :=
          lookupRes_insert_self id _ res
        simpa [fillMissing, hv] using
          fillMissing_preserves rest msg _ id (by rw [hI]; rfl)
    · by_cases hv : (lookupRes v res).isSome
      · simpa [fillMissing, hv] using ih res id h
      · simpa [fillMissing, hv] using ih _ id h

theorem allError_fold_lookup (msg : String) :
    ∀ (ids : List String) (res : List (String × VResult)) (id : String),
      (id ∈ ids ∨ lookupRes id res = some (.errorMsg msg)) →
      lookupRes id (ids.foldl (fun r vid => insertResult vid (.errorMsg msg) r) res)
        = some (.errorMsg msg) := by
  intro ids
  induction ids with
  | nil =>
    intro res id h
    rcases h with h | h
    · cases h
    · exact h
  | cons v rest ih =>
    intro res id h
    show lookupRes id (rest.foldl _ (insertResult v (.errorMsg msg) res)) = _
    rcases h with h | h
    · rcases List.mem_cons.mp h with h2 | h2
      · subst h2
        exact ih _ id (Or.inr (lookupRes_insert_self id _ res))
      · exact ih _ id (Or.inl h2)
    · by_cases hv : id = v
      · subst hv
        exact ih _ id (Or.inr (lookupRes_insert_self id _ res))
      · exact ih _ id (Or.inr (by rw [lookupRes_insert_other v id _ res hv]; exact h))

theorem allError_complete (ids : List String) (msg : String) (id : String) (h : id ∈ ids) :
    lookupRes id (allError ids msg) = some (.errorMsg msg) :=
  allError_fold_lookup msg ids [] id (Or.inl h)

theorem allError_nodup (ids : List String) (msg : String) :
    ((allError ids msg).map Prod.fst).Nodup := by
  have main : ∀ (l : List String) (res : List (String × VResult)),
      (res.map Prod.fst).Nodup →
      ((l.foldl (fun r vid => insertResult vid (.errorMsg msg) r) res).map Prod.fst).Nodup := by
    intro l
    induction l with
    | nil => intro res h; exact h
    | cons v rest ih => intro res h; exact ih _ (keys_nodup_insert v _ res h)
  exact main ids [] (by simp)

/-- The response whose status and stream `verify_batch` ends up consuming:
`none` when the call returns early because the post-rejection token refresh
failed. -/
def effectiveResp (w : BatchWorld) : Option BatchResponse :=
  match w.resp1 with
  | .exn m => some (.exn m)
  | .http st body events streamExn =>
    if st = 403 ∨ st = 401 then
      match w.csrf2 with
      | none => none
      | some _ => some w.resp2
    else some (.http st body events streamExn)

theorem finishBatch_counters (w : BatchWorld) (ids : List String) (resp : BatchResponse)
    (subs refs : Nat) (tok0 : Option String) :
    (finishBatch w ids resp subs refs tok0).submissions = subs ∧
    (finishBatch w ids resp subs refs tok0).rejectionRefreshes = refs ∧
    (finishBatch w ids resp subs refs tok0).firstHeaderToken = tok0 := by
  unfold finishBatch
  cases resp with
  | exn m => exact ⟨rfl, rfl, rfl⟩
  | http st body events streamExn =>
    dsimp only
    by_cases hst : st ≠ 200
    · rw [if_pos hst]; exact ⟨rfl, rfl, rfl⟩
    · rw [if_neg hst]
      cases streamExn <;> exact ⟨rfl, rfl, rfl⟩

theorem finishBatch_coverage (w : BatchWorld) (ids : List String) (resp : BatchResponse)
    (subs refs : Nat) (tok0 : Option String) :
    (((finishBatch w ids resp subs refs tok0).results).map Prod.fst).Nodup ∧
    (∀ id, id ∈ ids →
      lookupRes id (finishBatch w ids resp subs refs tok0).results = none →
      ∃ body events, resp = .http 200 body events none) := by
  unfold finishBatch
  cases resp with
  | exn m =>
    dsimp only
    refine ⟨fillMissing_nodup ids m [] (by simp), ?_⟩
    intro id hid hnone
    have h2 := fillMissing_complete ids m [] id hid
    rw [hnone] at h2
    simp at h2
  | http st body events streamExn =>
    dsimp only
    by_cases hst : st ≠ 200
    · rw [if_pos hst]
      dsimp only
      refine ⟨allError_nodup ids ("HTTP " ++ toString st ++ ": " ++ body.take 200), ?_⟩
      intro id hid hnone
      have h2 := allError_complete ids ("HTTP " ++ toString st ++ ": " ++ body.take 200) id hid
      rw [hnone] at h2
      simp at h2
    · rw [if_neg hst]
      have h200 : st = 200 := by omega
      cases streamExn with
      | some m =>
        dsimp only
        refine ⟨fillMissing_nodup ids m _
          (processEvents_nodup w.polls events ([], 0) (by simp)), ?_⟩
        intro id hid hnone
        have h2 := fillMissing_complete ids m ((processEvents w.polls events ([], 0)).1) id hid
        rw [hnone] at h2
        simp at h2
      | none =>
        dsimp only
        refine ⟨processEvents_nodup w.polls events ([], 0) (by simp), ?_⟩
        intro id _ _
        exact ⟨body, events, by rw [h200]⟩

/-- Claim C1 (counterexample): a batch POST that returns HTTP 200 with an
event stream that never names the requested id produces an empty result map —
the input id appears zero times, not exactly once. -/
theorem verify_batch_misses_unmentioned_id :
    (verify_batch ⟨none, none, none, .http 200 "" [] none, .exn "", fun _ _ => .exn ""⟩
        ["V1"]).results = [] ∧
    lookupRes "V1"
        (verify_batch ⟨none, none, none, .http 200 "" [] none, .exn "", fun _ _ => .exn ""⟩
          ["V1"]).results = none :=
  ⟨rfl, rfl⟩

/-- Claim C1 (amended): every id appears at most once in the returned map
(keys are pairwise distinct), and an input id can be absent only when the
consumed batch response was HTTP 200 and its stream ended cleanly without a
qualifying event for that id; on every other path — request exception, token
refresh failure, non-200 status, mid-stream exception — every input id is
present. -/
theorem verify_batch_results_coverage (w : BatchWorld) (ids : List String) :
    (((verify_batch w ids).results).map Prod.fst).Nodup ∧
    (∀ id, id ∈ ids → lookupRes id (verify_batch w ids).results = none →
      ∃ body events, effectiveResp w = some (.http 200 body events none)) := by
  unfold verify_batch effectiveResp
  cases w.resp1 with
  | exn m =>
    dsimp only
    refine ⟨fillMissing_nodup ids m [] (by simp), ?_⟩
    intro id hid hnone
    have h2 := fillMissing_complete ids m [] id hid
    rw [hnone] at h2
    simp at h2
  | http st body events streamExn =>
    dsimp only
    by_cases hrej : st = 403 ∨ st = 401
    · rw [if_pos hrej, if_pos hrej]
      cases w.csrf2 with
      | none =>
        dsimp only
        refine ⟨allError_nodup ids "Token expired and refresh failed", ?_⟩
        intro id hid hnone
        have h2 := allError_complete ids "Token expired and refresh failed" id hid
        rw [hnone] at h2
        simp at h2
      | some t =>
        dsimp only
        have h := finishBatch_coverage w ids w.resp2 2 1
          (match w.csrf1 with | some t => some t | none => w.initialToken)
        refine ⟨h.1, ?_⟩
        intro id hid hnone
        rcases h.2 id hid hnone with ⟨b, e, he⟩
        exact ⟨b, e, by rw [he]⟩
    · rw [if_neg hrej, if_neg hrej]
      have h := finishBatch_coverage w ids (.http st body events streamExn) 1 0
        (match w.csrf1 with | some t => some t | none => w.initialToken)
      refine ⟨h.1, ?_⟩
      intro id hid hnone
      rcases h.2 id hid hnone with ⟨b, e, he⟩
      exact ⟨b, e, by rw [he]⟩

/-- Witness for C1's amended theorem: with a clean empty stream the only
allowed cause of absence is exhibited. -/
theorem verify_batch_results_coverage_witness :
    ∃ body events,
      effectiveResp ⟨none, none, none, .http 200 "" [] none, .exn "", fun _ _ => .exn ""⟩
        = some (.http 200 body events none) :=
  (verify_batch_results_coverage
      ⟨none, none, none, .http 200 "" [] none, .exn "", fun _ _ => .exn ""⟩ ["V1"]).2
    "V1" (by simp) rfl

/-- Claim C7: a 401/403 rejection of the batch submission triggers exactly one
token refresh; a successful refresh triggers exactly one resubmission (two
submissions in total); a failed refresh ends the call with one submission and
the `Token expired and refresh failed` error result for every input id; and
without a rejection no post-rejection refresh happens at all. -/
theorem verify_batch_refresh_once (w : BatchWorld) (ids : List String) :
    (∀ st body events se, w.resp1 = .http st body events se → (st = 403 ∨ st = 401) →
      (verify_batch w ids).rejectionRefreshes = 1 ∧
      (w.csrf2 = none →
        (verify_batch w ids).submissions = 1 ∧
        ∀ id, id ∈ ids →
          lookupRes id (verify_batch w ids).results
            = some (.errorMsg "Token expired and refresh failed")) ∧
      (∀ t, w.csrf2 = some t → (verify_batch w ids).submissions = 2)) ∧
    (∀ st body events se, w.resp1 = .http st body events se → ¬(st = 403 ∨ st = 401) →
      (verify_batch w ids).rejectionRefreshes = 0 ∧ (verify_batch w ids).submissions = 1) := by
  constructor
  · intro st body events se h1 hrej
    unfold verify_batch
    rw [h1]
    dsimp only
    rw [if_pos hrej]
    cases hc : w.csrf2 with
    | none =>
      refine ⟨rfl, fun _ => ⟨rfl, fun id hid => allError_complete ids _ id hid⟩, ?_⟩
      intro t ht
      simp at ht
    | some t =>
      have hfb := finishBatch_counters w ids w.resp2 2 1
        (match w.csrf1 with | some t => some t | none => w.initialToken)
      refine ⟨hfb.2.1, fun hn => ?_, fun t2 _ => hfb.1⟩
      simp at hn
  · intro st body events se h1 hrej
    unfold verify_batch
    rw [h1]
    dsimp only
    rw [if_neg hrej]
    have hfb := finishBatch_counters w ids (.http st body events se) 1 0
      (match w.csrf1 with | some t => some t | none => w.initialToken)
    exact ⟨hfb.2.1, hfb.1⟩

/-- Witness for C7 at a concrete rejected batch whose refresh fails. -/
theorem verify_batch_refresh_once_witness :
    (verify_batch ⟨none, none, none, .http 403 "deny" [] none, .exn "", fun _ _ => .exn ""⟩
        ["V1"]).rejectionRefreshes = 1 ∧
    (verify_batch ⟨none, none, none, .http 403 "deny" [] none, .exn "", fun _ _ => .exn ""⟩
        ["V1"]).submissions = 1 ∧
    lookupRes "V1"
        (verify_batch ⟨none, none, none, .http 403 "deny" [] none, .exn "", fun _ _ => .exn ""⟩
          ["V1"]).results = some (.errorMsg "Token expired and refresh failed") := by
  have h := (verify_batch_refresh_once
      ⟨none, none, none, .http 403 "deny" [] none, .exn "", fun _ _ => .exn ""⟩ ["V1"]).1
      403 "deny" [] none rfl (Or.inl rfl)
  exact ⟨h.1, (h.2.1 rfl).1, (h.2.1 rfl).2 "V1" (by simp)⟩

/-- Claim C8: when no embedding pattern matches, token extraction yields no
token (first match wins, none matches → none), yet the batch submission is
still attempted — at least one POST is issued, with no `X-CSRF-Token` header. -/
theorem verify_batch_no_token_soft_failure (w : BatchWorld) (ids : List String)
    (h1 : w.csrf1 = none) (h0 : w.initialToken = none) :
    (verify_batch w ids).firstHeaderToken = none ∧
    1 ≤ (verify_batch w ids).submissions ∧
    (∀ ms : List (Option String), (∀ m, m ∈ ms → m = none) → get_csrf_token ms = none) := by
  have htok : (match w.csrf1 with | some t => some t | none => w.initialToken)
      = (none : Option String) := by rw [h1, h0]
  have main : (verify_batch w ids).firstHeaderToken = none ∧
      1 ≤ (verify_batch w ids).submissions := by
    unfold verify_batch
    cases w.resp1 with
    | exn m => exact ⟨htok, by dsimp only; omega⟩
    | http st body events streamExn =>
      dsimp only
      by_cases hrej : st = 403 ∨ st = 401
      · rw [if_pos hrej]
        cases w.csrf2 with
        | none => exact ⟨htok, by dsimp only; omega⟩
        | some t =>
          have hfb := finishBatch_counters w ids w.resp2 2 1
            (match w.csrf1 with | some t => some t | none => w.initialToken)
          exact ⟨by rw [hfb.2.2]; exact htok, by rw [hfb.1]; omega⟩
      · rw [if_neg hrej]
        have hfb := finishBatch_counters w ids (.http st body events streamExn) 1 0
          (match w.csrf1 with | some t => some t | none => w.initialToken)
        exact ⟨by rw [hfb.2.2]; exact htok, by rw [hfb.1]⟩
  refine ⟨main.1, main.2, ?_⟩
  intro ms hms
  induction ms with
  | nil => rfl
  | cons o rest ih =>
    have ho : o = none := hms o (List.mem_cons_self o rest)
    subst ho
    exact ih (fun m hm => hms m (List.mem_cons_of_mem _ hm))

/-- Witness for C8 at a concrete tokenless world. -/
theorem verify_batch_no_token_soft_failure_witness :
    (verify_batch ⟨none, none, none, .http 200 "" [] none, .exn "", fun _ _ => .exn ""⟩
        ["V1"]).firstHeaderToken = none ∧
    1 ≤ (verify_batch ⟨none, none, none, .http 200 "" [] none, .exn "", fun _ _ => .exn ""⟩
        ["V1"]).submissions ∧
    get_csrf_token [none, none, none] = none := by
  have h := verify_batch_no_token_soft_failure
    ⟨none, none, none, .http 200 "" [] none, .exn "", fun _ _ => .exn ""⟩ ["V1"] rfl rfl
  exact ⟨h.1, h.2.1, h.2.2 [none, none, none] (by intro m hm; simpa using hm)⟩

/-! ## Allocator lemmas -/

theorem mem_sortedInsertCard (c x : Card) (l : List Card) :
    x ∈ sortedInsertCard c l ↔ x = c ∨ x ∈ l := by
  induction l with
  | nil => simp [sortedInsertCard]
  | cons d rest ih =>
    by_cases h : cardLe c d
    · simp [sortedInsertCard, h, List.mem_cons]
    · simp [sortedInsertCard, h, List.mem_cons, ih]
      tauto

theorem mem_sortCards (x : Card) (l : List Card) : x ∈ sortCards l ↔ x ∈ l := by
  induction l with
  | nil => simp [sortCards]
  | cons c rest ih =>
    simp [sortCards, mem_sortedInsertCard, ih, List.mem_cons]

theorem mem_get_available_cards (db : List Card) (c : Card) :
    c ∈ get_available_cards db ↔
      c ∈ db ∧ c.is_active = true ∧ c.usage_count < c.max_usage := by
  unfold get_available_cards
  rw [mem_sortCards, List.mem_filter]
  simp [cardEligible, and_assoc]

theorem allocStep_eq (num cpa : Nat) (s : AllocState) :
    allocStep num cpa s =
      if num ≤ (rotateState cpa s).card_index then (.exhausted, rotateState cpa s)
      else (.assigned (rotateState cpa s).card_index,
            ⟨(rotateState cpa s).card_index, (rotateState cpa s).card_usage_count + 1⟩) := rfl

theorem allocBatch_cons_exhausted (num cpa : Nat) (s : AllocState) (j : Nat) (rest : List Nat)
    (hc : num ≤ (rotateState cpa s).card_index) :
    (allocBatch num cpa s (j :: rest)).1 = [] ∧
    (allocBatch num cpa s (j :: rest)).2 = rotateState cpa s := by
  simp only [allocBatch]
  rw [show allocStep num cpa s = (.exhausted, rotateState cpa s) by
    rw [allocStep_eq, if_pos hc]]
  exact ⟨rfl, rfl⟩

theorem allocBatch_cons_assigned (num cpa : Nat) (s : AllocState) (j : Nat) (rest : List Nat)
    (hc : ¬ num ≤ (rotateState cpa s).card_index) :
    (allocBatch num cpa s (j :: rest)).1
      = (j, (rotateState cpa s).card_index)
          :: (allocBatch num cpa
              ⟨(rotateState cpa s).card_index, (rotateState cpa s).card_usage_count + 1⟩ rest).1 ∧
    (allocBatch num cpa s (j :: rest)).2
      = (allocBatch num cpa
          ⟨(rotateState cpa s).card_index, (rotateState cpa s).card_usage_count + 1⟩ rest).2 := by
  simp only [allocBatch]
  rw [show allocStep num cpa s
      = (.assigned (rotateState cpa s).card_index,
         ⟨(rotateState cpa s).card_index, (rotateState cpa s).card_usage_count + 1⟩) by
    rw [allocStep_eq, if_neg hc]]
  exact ⟨rfl, rfl⟩

theorem rotateState_index_ge (cpa : Nat) (s : AllocState) :
    s.card_index ≤ (rotateState cpa s).card_index := by
  unfold rotateState
  by_cases h : cpa ≤ s.card_usage_count
  · rw [if_pos h]; dsimp only; omega
  · rw [if_neg h]

theorem allocBatch_exhausted_absorb (num cpa : Nat) :
    ∀ (l : List Nat) (s : AllocState), num ≤ s.card_index →
      (allocBatch num cpa s l).1 = [] ∧ num ≤ (allocBatch num cpa s l).2.card_index := by
  intro l
  cases l with
  | nil => intro s hs; exact ⟨rfl, hs⟩
  | cons j rest =>
    intro s hs
    have hrot : num ≤ (rotateState cpa s).card_index :=
      Nat.le_trans hs (rotateState_index_ge cpa s)
    have h := allocBatch_cons_exhausted num cpa s j rest hrot
    exact ⟨h.1, by rw [h.2]; exact hrot⟩

theorem allocBatch_append (num cpa : Nat) :
    ∀ (l1 l2 : List Nat) (s : AllocState),
      (allocBatch num cpa s (l1 ++ l2)).1
        = (allocBatch num cpa s l1).1
            ++ (allocBatch num cpa (allocBatch num cpa s l1).2 l2).1 := by
  intro l1
  induction l1 with
  | nil => intro l2 s; rfl
  | cons j rest ih =>
    intro l2 s
    by_cases hc : num ≤ (rotateState cpa s).card_index
    · have h1 := allocBatch_cons_exhausted num cpa s j (rest ++ l2) hc
      have h2 := allocBatch_cons_exhausted num cpa s j rest hc
      rw [List.cons_append, h1.1, h2.1, h2.2]
      have habs := allocBatch_exhausted_absorb num cpa l2 (rotateState cpa s) hc
      rw [habs.1]
      rfl
    · have h1 := allocBatch_cons_assigned num cpa s j (rest ++ l2) hc
      have h2 := allocBatch_cons_assigned num cpa s j rest hc
      rw [List.cons_append, h1.1, h2.1, h2.2, List.cons_append, ih]

theorem allocChunks_cons_eq (num cpa : Nat) (s : AllocState) (c : List Nat)
    (cs : List (List Nat)) :
    (allocChunks num cpa s (c :: cs)).1
      = (allocBatch num cpa s c).1 :: (allocChunks num cpa (allocBatch num cpa s c).2 cs).1 ∧
    (allocChunks num cpa s (c :: cs)).2
      = (allocChunks num cpa (allocBatch num cpa s c).2 cs).2 := by
  simp only [allocChunks]
  exact ⟨trivial, trivial⟩

theorem allocChunks_flatten (num cpa : Nat) :
    ∀ (cs : List (List Nat)) (s : AllocState),
      (allocChunks num cpa s cs).1.flatten = (allocBatch num cpa s cs.flatten).1 := by
  intro cs
  induction cs with
  | nil => intro s; rfl
  | cons c rest ih =>
    intro s
    rw [(allocChunks_cons_eq num cpa s c rest).1, List.flatten_cons, ih,
      List.flatten_cons, allocBatch_append]

theorem chunksOfFuel_congr {α : Type} (n : Nat) :
    ∀ (f1 f2 : Nat) (l : List α), l.length ≤ f1 → l.length ≤ f2 →
      chunksOfFuel n f1 l = chunksOfFuel n f2 l := by
  intro f1
  induction f1 with
  | zero =>
    intro f2 l h1 h2
    have : l = [] := List.eq_nil_of_length_eq_zero (by omega)
    subst this
    cases f2 <;> rfl
  | succ f ih =>
    intro f2 l h1 h2
    cases l with
    | nil => cases f2 <;> rfl
    | cons x xs =>
      cases f2 with
      | zero => simp at h2
      | succ f2m =>
        simp only [chunksOfFuel]
        congr 1
        exact ih f2m (xs.drop (n - 1))
          (by simp only [List.length_drop]; simp at h1; omega)
          (by simp only [List.length_drop]; simp at h2; omega)

theorem chunksOf_nil_eq {α : Type} (n : Nat) : chunksOf n ([] : List α) = [] := rfl

theorem chunksOf_cons_eq {α : Type} (n : Nat) (x : α) (xs : List α) :
    chunksOf n (x :: xs) = (x :: xs.take (n - 1)) :: chunksOf n (xs.drop (n - 1)) := by
  show chunksOfFuel n (x :: xs).length (x :: xs) = _
  simp only [List.length_cons, chunksOfFuel]
  congr 1
  exact chunksOfFuel_congr n xs.length (xs.drop (n - 1)).length (xs.drop (n - 1))
    (by simp only [List.length_drop]; omega) (Nat.le_refl _)

theorem chunksOf_flatten {α : Type} (n : Nat) (l : List α) : (chunksOf n l).flatten = l := by
  have main : ∀ (m : Nat) (l : List α), l.length ≤ m → (chunksOf n l).flatten = l := by
    intro m
    induction m with
    | zero =>
      intro l hl
      have : l = [] := List.eq_nil_of_length_eq_zero (by omega)
      subst this
      rw [chunksOf_nil_eq]
      rfl
    | succ m ih =>
      intro l hl
      cases l with
      | nil => rw [chunksOf_nil_eq]; rfl
      | cons x xs =>
        rw [chunksOf_cons_eq, List.flatten_cons,
          ih (xs.drop (n - 1)) (by simp only [List.length_drop]; simp at hl; omega)]
        rw [List.cons_append, List.take_append_drop]
  exact main l.length l (Nat.le_refl _)

theorem chunksOf_sizes {α : Type} (n : Nat) (hn : 0 < n) :
    ∀ (l : List α) (c : List α), c ∈ chunksOf n l → c.length ≤ n ∧ c ≠ [] := by
  have main : ∀ (m : Nat) (l : List α) (c : List α), l.length ≤ m →
      c ∈ chunksOf n l → c.length ≤ n ∧ c ≠ [] := by
    intro m
    induction m with
    | zero =>
      intro l c hl hc
      have : l = [] := List.eq_nil_of_length_eq_zero (by omega)
      subst this
      rw [chunksOf_nil_eq] at hc
      cases hc
    | succ m ih =>
      intro l c hl hc
      cases l with
      | nil => rw [chunksOf_nil_eq] at hc; cases hc
      | cons x xs =>
        rw [chunksOf_cons_eq] at hc
        rcases List.mem_cons.mp hc with h | h
        · subst h
          refine ⟨?_, by simp⟩
          simp only [List.length_cons, List.length_take]
          omega
        · exact ih (xs.drop (n - 1)) c
            (by simp only [List.length_drop]; simp at hl; omega) h
  intro l c hc
  exact main l.length l c (Nat.le_refl _) hc

theorem runChunks_chunksAssigned (snapshot : List Card) (num cpa : Nat)
    (outcome : Nat → Bool) :
    ∀ (cs : List (List Nat)) (s : AllocState) (db : List Card),
      (runChunks snapshot num cpa outcome s db cs).chunksAssigned
        = (allocChunks num cpa s cs).1 := by
  intro cs
  induction cs with
  | nil => intro s db; rfl
  | cons c rest ih =>
    intro s db
    show (runChunks snapshot num cpa outcome s db (c :: rest)).chunksAssigned = _
    rw [(allocChunks_cons_eq num cpa s c rest).1]
    simp only [runChunks]
    rw [ih]

theorem runProcessAll_flatten (db0 : List Card) (cpa threads n : Nat) (outcome : Nat → Bool) :
    (runProcessAll db0 cpa threads n outcome).chunksAssigned.flatten
      = (allocBatch (get_available_cards db0).length cpa ⟨0, 0⟩ (List.range n)).1 := by
  unfold runProcessAll
  rw [runChunks_chunksAssigned, allocChunks_flatten, chunksOf_flatten]

theorem rotateState_next (cpa : Nat) (hcpa : 0 < cpa) (j : Nat) :
    rotateState cpa ⟨j / cpa, j % cpa + 1⟩ = ⟨(j + 1) / cpa, (j + 1) % cpa⟩ := by
  have hdm := Nat.div_add_mod j cpa
  have hm : j % cpa < cpa := Nat.mod_lt j hcpa
  unfold rotateState
  by_cases h : cpa ≤ j % cpa + 1
  · rw [if_pos (by dsimp only; omega)]
    have heq : (j + 1) / cpa = j / cpa + 1 ∧ (j + 1) % cpa = 0 := by
      refine (Nat.div_mod_unique hcpa).mpr ⟨?_, hcpa⟩
      have hc : j % cpa + 1 = cpa := by omega
      calc 0 + cpa * (j / cpa + 1) = cpa * (j / cpa) + cpa := by ring
        _ = j + 1 := by omega
    rw [heq.1, heq.2]
  · rw [if_neg (by dsimp only; omega)]
    have heq : (j + 1) / cpa = j / cpa ∧ (j + 1) % cpa = j % cpa + 1 := by
      refine (Nat.div_mod_unique hcpa).mpr ⟨by omega, by omega⟩
    rw [heq.1, heq.2]

theorem allocBatch_range_formula (num cpa : Nat) (hcpa : 0 < cpa) :
    ∀ (k j : Nat) (s : AllocState), rotateState cpa s = ⟨j / cpa, j % cpa⟩ →
      (allocBatch num cpa s (List.range' j k)).1
        = (List.range' j (min k (num * cpa - j))).map (fun i => (i, i / cpa)) := by
  intro k
  induction k with
  | zero => intro j s hs; simp [allocBatch]
  | succ k ih =>
    intro j s hs
    rw [List.range'_succ]
    by_cases hnum : num ≤ j / cpa
    · have hj : num * cpa ≤ j := by
        have := (Nat.le_div_iff_mul_le hcpa).mp hnum
        omega
      have hmin : min (k + 1) (num * cpa - j) = 0 := by omega
      have hx := allocBatch_cons_exhausted num cpa s j (List.range' (j + 1) k)
        (by rw [hs]; exact hnum)
      rw [hx.1, hmin]
      rfl
    · have hj : j < num * cpa := by
        have hlt : j / cpa < num := by omega
        exact (Nat.div_lt_iff_lt_mul hcpa).mp hlt
      have hx := allocBatch_cons_assigned num cpa s j (List.range' (j + 1) k)
        (by rw [hs]; exact hnum)
      rw [hx.1, hs]
      dsimp only
      rw [ih (j + 1) ⟨j / cpa, j % cpa + 1⟩ (rotateState_next cpa hcpa j)]
      have hmin : min (k + 1) (num * cpa - j) = min k (num * cpa - (j + 1)) + 1 := by omega
      rw [hmin, List.range'_succ, List.map_cons]

theorem runProcessAll_formula (db0 : List Card) (cpa threads n : Nat) (outcome : Nat → Bool)
    (hcpa : 0 < cpa) :
    (runProcessAll db0 cpa threads n outcome).chunksAssigned.flatten
      = (List.range' 0 (min n ((get_available_cards db0).length * cpa))).map
          (fun j => (j, j / cpa)) := by
  rw [runProcessAll_flatten, List.range_eq_range']
  have h0 : rotateState cpa ⟨0, 0⟩ = ⟨0 / cpa, 0 % cpa⟩ := by
    unfold rotateState
    rw [if_neg (by dsimp only; omega)]
    simp
  rw [allocBatch_range_formula (get_available_cards db0).length cpa hcpa n 0 ⟨0, 0⟩ h0,
    Nat.sub_zero]

theorem allocBatch_card_lt (num cpa : Nat) :
    ∀ (l : List Nat) (s : AllocState) (p : Nat × Nat),
      p ∈ (allocBatch num cpa s l).1 → p.2 < num := by
  intro l
  induction l with
  | nil => intro s p hp; simp [allocBatch] at hp
  | cons j rest ih =>
    intro s p hp
    by_cases hc : num ≤ (rotateState cpa s).card_index
    · rw [(allocBatch_cons_exhausted num cpa s j rest hc).1] at hp
      cases hp
    · rw [(allocBatch_cons_assigned num cpa s j rest hc).1] at hp
      rcases List.mem_cons.mp hp with h | h
      · subst h
        dsimp only
        omega
      · exact ih _ p h

/-! ## Claims C9, C3, C2 -/

/-- Claim C9: the orchestrator partitions the job list into concurrency-sized
chunks (their concatenation is the job list, every chunk is nonempty of length
at most the concurrency); one card is handed out per job, and the loop rotates
to the next card exactly after `cards_per_account` jobs took the current one —
job `j` takes card `j / cpa`, and jobs from `numCards * cpa` on get nothing;
in the concrete scenario of 3 cards of `max_usage` 1, `cards_per_account` 1,
3 jobs and concurrency 2, the jobs run in chunks `[job 0, job 1]`, `[job 2]`
with pairwise distinct cards 0, 1, 2, and afterwards the pool has no available
card. -/
theorem orchestrator_chunks_and_rotation (db0 : List Card) (cpa threads n : Nat)
    (outcome : Nat → Bool) (hcpa : 0 < cpa) (hthreads : 0 < threads) :
    ((chunksOf threads (List.range n)).flatten = List.range n ∧
      (∀ c, c ∈ chunksOf threads (List.range n) → c.length ≤ threads ∧ c ≠ [])) ∧
    ((runProcessAll db0 cpa threads n outcome).chunksAssigned.flatten
        = (List.range' 0 (min n ((get_available_cards db0).length * cpa))).map
            (fun j => (j, j / cpa))) ∧
    ((runProcessAll [⟨1, 0, 1, true⟩, ⟨2, 0, 1, true⟩, ⟨3, 0, 1, true⟩] 1 2 3
          (fun _ => true)).chunksAssigned = [[(0, 0), (1, 1)], [(2, 2)]] ∧
      get_available_cards
        (runProcessAll [⟨1, 0, 1, true⟩, ⟨2, 0, 1, true⟩, ⟨3, 0, 1, true⟩] 1 2 3
          (fun _ => true)).finalDb = []) := by
  refine ⟨⟨chunksOf_flatten threads (List.range n), ?_⟩,
    runProcessAll_formula db0 cpa threads n outcome hcpa, by decide⟩
  intro c hc
  exact chunksOf_sizes threads hthreads (List.range n) c hc

/-- Witness for C9 at the concrete scenario inputs. -/
theorem orchestrator_chunks_and_rotation_witness :
    (runProcessAll [⟨1, 0, 1, true⟩, ⟨2, 0, 1, true⟩, ⟨3, 0, 1, true⟩] 1 2 3
        (fun _ => true)).chunksAssigned.flatten
      = (List.range' 0 (min 3
            ((get_available_cards [⟨1, 0, 1, true⟩, ⟨2, 0, 1, true⟩, ⟨3, 0, 1, true⟩]).length * 1))).map
          (fun j => (j, j / 1)) :=
  (orchestrator_chunks_and_rotation [⟨1, 0, 1, true⟩, ⟨2, 0, 1, true⟩, ⟨3, 0, 1, true⟩]
    1 2 3 (fun _ => true) (by decide) (by decide)).2.1

/-- Claim C3 (counterexample): with one card of `max_usage` 2,
`cards_per_account` 2, three jobs and concurrency 3, job 2 is skipped when the
pool index runs out — but it is not marked `ResourceExhausted`: no status at
all is emitted for it (the code only logs and breaks). -/
theorem exhausted_job_gets_no_mark :
    (runProcessAll [⟨1, 0, 2, true⟩] 2 3 3 (fun _ => true)).chunksAssigned
        = [[(0, 0), (1, 0)]] ∧
    emittedStatuses (runProcessAll [⟨1, 0, 2, true⟩] 2 3 3 (fun _ => true)) (fun _ => true)
        = [(0, "完成"), (1, "完成")] ∧
    (2, "ResourceExhausted")
        ∉ emittedStatuses (runProcessAll [⟨1, 0, 2, true⟩] 2 3 3 (fun _ => true))
            (fun _ => true) ∧
    (∀ p, p ∈ emittedStatuses (runProcessAll [⟨1, 0, 2, true⟩] 2 3 3 (fun _ => true))
        (fun _ => true) → p.1 ≠ 2) := by
  decide

/-- Claim C3 (amended): when the pool is exhausted, the remaining jobs of the
batch (and of every later batch) are not attempted — they appear in no chunk's
task list — but they are not marked `ResourceExhausted` or anything else:
no per-job status is emitted for them; the only signal is a log line. -/
theorem exhausted_jobs_not_attempted_unmarked (db0 : List Card) (cpa threads n : Nat)
    (outcome : Nat → Bool) (j : Nat) (hcpa : 0 < cpa) (_hthreads : 0 < threads)
    (hj : (get_available_cards db0).length * cpa ≤ j) :
    (∀ p, p ∈ (runProcessAll db0 cpa threads n outcome).chunksAssigned.flatten → p.1 ≠ j) ∧
    (∀ q, q ∈ emittedStatuses (runProcessAll db0 cpa threads n outcome) outcome →
      q.1 ≠ j) := by
  have hf := runProcessAll_formula db0 cpa threads n outcome hcpa
  have hmain : ∀ p, p ∈ (runProcessAll db0 cpa threads n outcome).chunksAssigned.flatten →
      p.1 ≠ j := by
    intro p hp
    rw [hf] at hp
    rcases List.mem_map.mp hp with ⟨i, hi, hpe⟩
    have hir := List.mem_range'_1.mp hi
    have hp1 : p.1 = i := by rw [← hpe]
    omega
  refine ⟨hmain, ?_⟩
  intro q hq
  unfold emittedStatuses at hq
  rcases List.mem_map.mp hq with ⟨p, hp, hqe⟩
  have hq1 : q.1 = p.1 := by rw [← hqe]
  rw [hq1]
  exact hmain p hp

/-- Witness for C3's amended theorem at the counterexample's inputs. -/
theorem exhausted_jobs_not_attempted_unmarked_witness :
    (∀ p, p ∈ (runProcessAll [⟨1, 0, 2, true⟩] 2 3 3 (fun _ => true)).chunksAssigned.flatten →
      p.1 ≠ 2) ∧
    (∀ q, q ∈ emittedStatuses (runProcessAll [⟨1, 0, 2, true⟩] 2 3 3 (fun _ => true))
        (fun _ => true) → q.1 ≠ 2) :=
  exhausted_jobs_not_attempted_unmarked [⟨1, 0, 2, true⟩] 2 3 3 (fun _ => true) 2
    (by decide) (by decide) (by decide)

/-- Claim C2 (counterexample): one card of `max_usage` 1, `cards_per_account`
2, two jobs, concurrency 1, both jobs succeeding: the second job is handed the
card while the database already records `usage_count = 1 = max_usage`, and
after both `increment_card_usage` calls the card holds `usage_count = 2 >
max_usage = 1` — the claimed allocation guard and invariant are both false. -/
theorem card_allocated_at_capacity :
    (runProcessAll [⟨1, 0, 1, true⟩] 2 1 2 (fun _ => true)).events
        = [⟨0, 1, 0, 1⟩, ⟨1, 1, 1, 1⟩] ∧
    (runProcessAll [⟨1, 0, 1, true⟩] 2 1 2 (fun _ => true)).finalDb = [⟨1, 2, 1, true⟩] ∧
    ¬ ((∀ e, e ∈ (runProcessAll [⟨1, 0, 1, true⟩] 2 1 2 (fun _ => true)).events →
          e.usageAtAlloc < e.maxUsage) ∧
       (∀ c, c ∈ (runProcessAll [⟨1, 0, 1, true⟩] 2 1 2 (fun _ => true)).finalDb →
          c.usage_count ≤ c.max_usage)) := by
  decide

/-- Claim C2 (amended): eligibility is enforced only when the pool snapshot is
taken — `get_available_cards` returns exactly the cards with `is_active` and
`usage_count < max_usage` — so every card the orchestrator hands to a job was
active and under its cap in the snapshot the run started from; the rotation
itself never re-checks `max_usage` against the live counts, so the allocation
guard and the `usage_count ≤ max_usage` invariant do not hold at allocation
time or after `increment_card_usage` (see the counterexample). -/
theorem allocation_eligible_at_snapshot (db0 : List Card) (cpa threads n : Nat)
    (outcome : Nat → Bool) :
    (∀ c, c ∈ get_available_cards db0 ↔
        c ∈ db0 ∧ c.is_active = true ∧ c.usage_count < c.max_usage) ∧
    (∀ p, p ∈ (runProcessAll db0 cpa threads n outcome).chunksAssigned.flatten →
      (get_available_cards db0).getD p.2 defaultCard ∈ db0 ∧
      ((get_available_cards db0).getD p.2 defaultCard).is_active = true ∧
      ((get_available_cards db0).getD p.2 defaultCard).usage_count
        < ((get_available_cards db0).getD p.2 defaultCard).max_usage) := by
  refine ⟨fun c => mem_get_available_cards db0 c, ?_⟩
  intro p hp
  rw [runProcessAll_flatten] at hp
  have hlt : p.2 < (get_available_cards db0).length :=
    allocBatch_card_lt (get_available_cards db0).length cpa (List.range n) ⟨0, 0⟩ p hp
  have hmem : (get_available_cards db0).getD p.2 defaultCard ∈ get_available_cards db0 := by
    rw [List.getD_eq_getElem (get_available_cards db0) defaultCard hlt]
    exact List.getElem_mem hlt
  exact (mem_get_available_cards db0 _).mp hmem

end AutoBB
